import Mathlib

/-!
Shallow embedding of `tfx/components/base/decorators.py`: the
function-to-component compiler (`component`) and the invocation adapter
(`_FunctionExecutor.Do`), together with proofs about the behaviour the
specification claims.

Modelling conventions:
* Python dictionaries keyed by strings are association lists consulted at the
  first matching key; the code only ever builds them with distinct keys.
* Python's `KeyError` / `IndexError` / `ValueError` are the constructors of
  `DoError`; fallible code runs in `Except DoError`.
* `absl.logging.warning` calls are collected in an ordered `List Warning`
  returned alongside the mutated output dictionary (the Python `Do` mutates
  `output_dict` in place and returns `None`; here the updated dictionary is
  the returned state and there is no other return value).
* Python floats only ever arise in this code base as `float(i)` for a small
  integer `i`, so a float value is carried as its exact integer.
-/

namespace TfxDecorators

/-- Primitive Python values that can be carried by a value artifact or
returned from a wrapped component function.  `float n` is the Python float
with exact integer value `n` (the sources only build floats via `float`
applied to small integers). -/
inductive Value where
  | int (n : Int)
  | float (n : Int)
  | str (s : String)
  | bytes (b : List Nat)
  | bool (b : Bool)
deriving DecidableEq

/-- Python truthiness (`bool(v)`) for the primitive values. -/
def Value.truthy : Value → Bool
  | .int n => n != 0
  | .float n => n != 0
  | .str s => s != ""
  | .bytes b => !b.isEmpty
  | .bool b => b

/-- A TFX artifact as seen by the adapter: a `uri` string and, for value
artifacts, an optional primitive `value` (`none` when the value slot is
unset). -/
structure Artifact where
  uri : String
  value : Option Value
deriving DecidableEq

/-- One concrete call argument passed to the wrapped Python function: the
artifact object itself, a uri string, or a primitive value slot. -/
inductive Arg where
  | artifact (a : Artifact)
  | uri (u : String)
  | val (v : Option Value)
deriving DecidableEq

/-- A Python value as returned by the wrapped function: `None`, a dict of
string keys to primitive values, or some other (non-dict) value. -/
inductive PyVal where
  | none
  | dict (entries : List (String × Value))
  | other (v : Value)
deriving DecidableEq

/-- Python truthiness for a returned value (used by `outputs or \x7b\x7d`). -/
def PyVal.truthy : PyVal → Bool
  | .none => false
  | .dict entries => !entries.isEmpty
  | .other v => v.truthy

/-- `isinstance(outputs, dict)`. -/
def PyVal.isDict : PyVal → Bool
  | .dict _ => true
  | _ => false

/-- Python `a or b`. -/
def pyOr (a b : PyVal) : PyVal := if a.truthy then a else b

/-- The warnings `Do` can log via `absl.logging.warning`. -/
inductive Warning where
  | nonDictReturn (v : PyVal)
  | missingOutput (name : String)
deriving DecidableEq

/-- The exceptions `Do` can raise: `KeyError` on a missing dictionary key,
`IndexError` on an empty artifact list, `ValueError` on an unknown argument
format. -/
inductive DoError where
  | keyError (name : String)
  | indexError (name : String)
  | valueError (fmt : Nat)
deriving DecidableEq

/-- Modelled from the spec: the `ArgFormats` enum of
`tfx.components.base.function_parser` (that file is not part of the sources;
the spec fixes the five parameter roles).  Members are Python enum objects;
`code` is the member's integer value, which is how an executor class stores
them. -/
inductive ArgFormats where
  | INPUT_ARTIFACT
  | INPUT_URI
  | OUTPUT_ARTIFACT
  | OUTPUT_URI
  | ARTIFACT_VALUE
deriving DecidableEq

/-- The integer code of an `ArgFormats` enum member. -/
def ArgFormats.code : ArgFormats → Nat
  | .INPUT_ARTIFACT => 1
  | .INPUT_URI => 2
  | .OUTPUT_ARTIFACT => 3
  | .OUTPUT_URI => 4
  | .ARTIFACT_VALUE => 5

/-- Whether a stored format code is one of the five `ArgFormats` members. -/
def isKnownFormat (fmt : Nat) : Bool :=
  fmt == ArgFormats.INPUT_ARTIFACT.code ||
  fmt == ArgFormats.INPUT_URI.code ||
  fmt == ArgFormats.OUTPUT_ARTIFACT.code ||
  fmt == ArgFormats.OUTPUT_URI.code ||
  fmt == ArgFormats.ARTIFACT_VALUE.code

/-- A Python dict from channel name to ordered artifact list
(`Dict[Text, List[Artifact]]`). -/
abbrev PyDict := List (String × List Artifact)

/-- First-match lookup in a string-keyed association list (Python `d[k]`
semantics, with `none` for `KeyError`; the code only builds dicts with
distinct keys). -/
def assocLookup {α : Type} : List (String × α) → String → Option α
  | [], _ => Option.none
  | (m, v) :: rest, n => if m = n then some v else assocLookup rest n

/-- Replace the artifact list stored at the first occurrence of key `n`
(identity when the key is absent). -/
def assocSet : PyDict → String → List Artifact → PyDict
  | [], _, _ => []
  | (m, l) :: rest, n, l' =>
    if m = n then (m, l') :: rest else (m, l) :: assocSet rest n l'

/-- Python `d[name][0]`: `KeyError` when `name` is absent, `IndexError` when
the artifact list is empty. -/
def firstOf (d : PyDict) (name : String) : Except DoError Artifact :=
  match assocLookup d name with
  | Option.none => Except.error (DoError.keyError name)
  | some [] => Except.error (DoError.indexError name)
  | some (a :: _) => Except.ok a

/-- One iteration of the argument-resolution loop of `_FunctionExecutor.Do`
(decorators.py lines 54-66): the `if/elif` chain over the stored argument
format, with the final `else` raising `ValueError`. -/
def resolveArg (input_dict output_dict : PyDict) (name : String) (fmt : Nat) :
    Except DoError Arg :=
  if fmt = ArgFormats.INPUT_ARTIFACT.code then
    (firstOf input_dict name).map Arg.artifact
  else if fmt = ArgFormats.INPUT_URI.code then
    (firstOf input_dict name).map (fun a => Arg.uri a.uri)
  else if fmt = ArgFormats.OUTPUT_ARTIFACT.code then
    (firstOf output_dict name).map Arg.artifact
  else if fmt = ArgFormats.OUTPUT_URI.code then
    (firstOf output_dict name).map (fun a => Arg.uri a.uri)
  else if fmt = ArgFormats.ARTIFACT_VALUE.code then
    (firstOf input_dict name).map (fun a => Arg.val a.value)
  else
    Except.error (DoError.valueError fmt)

/-- The whole `for name, arg_format in self._ARG_FORMATS` loop, building
`function_args` in declared order. -/
def resolveArgs (input_dict output_dict : PyDict) :
    List (String × Nat) → Except DoError (List Arg)
  | [] => Except.ok []
  | (name, fmt) :: rest => do
    let a ← resolveArg input_dict output_dict name fmt
    let args ← resolveArgs input_dict output_dict rest
    pure (a :: args)

/-- Python `output_dict[name][0].value = v` (decorators.py line 84):
`KeyError` / `IndexError` as in `firstOf`, otherwise the first artifact of
the list gets its `value` attribute set, everything else untouched. -/
def setFirstValue (output_dict : PyDict) (name : String) (v : Value) :
    Except DoError PyDict :=
  match assocLookup output_dict name with
  | Option.none => Except.error (DoError.keyError name)
  | some [] => Except.error (DoError.indexError name)
  | some (a :: rest) =>
    Except.ok (assocSet output_dict name ({ a with value := some v } :: rest))

/-- The `for name in self._RETURNED_VALUES` loop of `Do` (decorators.py
lines 78-84): a name absent from the returned dict logs a warning and is
skipped; a present name has its value written into the first output
artifact. -/
def writeReturnedValues (output_dict : PyDict) :
    List String → List (String × Value) → Except DoError (PyDict × List Warning)
  | [], _ => Except.ok (output_dict, [])
  | name :: rest, entries =>
    match assocLookup entries name with
    | Option.none => do
      let (d, ws) ← writeReturnedValues output_dict rest entries
      pure (d, Warning.missingOutput name :: ws)
    | some v => do
      let d ← setFirstValue output_dict name v
      writeReturnedValues d rest entries

/-- A generated executor class: the class attributes set up by `component`
(decorators.py lines 192-203).  The base-class defaults (`_ARG_FORMATS = \x7b\x7d`
etc.) are never used, as `component` always overrides all three.  Argument
formats are stored as the enum members' integer codes, which lets the list
also represent an ill-formed class whose formats are not enum members. -/
structure ExecutorClass where
  name : String
  module : String
  ARG_FORMATS : List (String × Nat)
  FUNCTION : List Arg → PyVal
  RETURNED_VALUES : List String

/-- `_FunctionExecutor.Do` (decorators.py lines 50-84), after the wrapped
function has returned: `outputs = outputs or \x7b\x7d`, the `isinstance` check with
its warning and early `return`, then the returned-values loop.  The Python
method's unused `exec_properties` parameter is omitted. -/
def finishDo (ex : ExecutorClass) (output_dict : PyDict) (returned : PyVal) :
    Except DoError (PyDict × List Warning) :=
  match pyOr returned (PyVal.dict []) with
  | PyVal.dict entries => writeReturnedValues output_dict ex.RETURNED_VALUES entries
  | v => Except.ok (output_dict, [Warning.nonDictReturn v])

/-- `_FunctionExecutor.Do` (decorators.py lines 50-84): resolve the call
arguments from the stored formats, call the wrapped function positionally,
then post-process its result. -/
def Do (ex : ExecutorClass) (input_dict output_dict : PyDict) :
    Except DoError (PyDict × List Warning) := do
  let args ← resolveArgs input_dict output_dict ex.ARG_FORMATS
  finishDo ex output_dict (ex.FUNCTION args)

/-- Modelled from the spec: the classification record produced by
`parse_typehint_component_function` (file `function_parser.py`, not in the
sources).  Per the spec it holds the input and output channel mappings, the
ordered `(name, role)` argument formats with roles drawn from the five
`ArgFormats` members, and the ordered returned-value names (their primitive
kinds are never consulted by the compiler or the adapter modelled here). -/
structure Classification where
  inputs : List (String × String)
  outputs : List (String × String)
  arg_formats : List (String × ArgFormats)
  returned_values : List String

/-- A Python function object as `component` sees it: `__name__`,
`__qualname__`, `__module__`, the outcome of running the signature parser on
it (`Modelled from the spec`, as `function_parser.py` is not in the sources:
only the parse outcome matters to the compiler), and the callable body. -/
structure PyFunction where
  name : String
  qualname : String
  module : String
  parse : Except String Classification
  impl : List Arg → PyVal

/-- Errors raised by the `component` decorator. -/
inductive ComponentError where
  | scopeError (msg : String)
  | signatureError (msg : String)

/-- The component class built by `component` (decorators.py lines 174-219):
spec channels from the classification plus the generated executor class. -/
structure ComponentClass where
  name : String
  module : String
  INPUTS : List (String × String)
  OUTPUTS : List (String × String)
  executor : ExecutorClass

/-- The mutable attribute table of `sys.modules`, restricted to the executor
attributes this code installs: entries keyed by (module name, attribute
name), newest first, so a later `setattr` shadows an earlier one. -/
abbrev ModuleRegistry := List ((String × String) × ExecutorClass)

/-- `setattr(sys.modules[module], attr, ex)` (decorators.py lines 209-210). -/
def setModuleAttr (reg : ModuleRegistry) (module attr : String)
    (ex : ExecutorClass) : ModuleRegistry :=
  ((module, attr), ex) :: reg

/-- `getattr(sys.modules[module], attr, None)`: resolve a registered
executor class by module and attribute name. -/
def getModuleAttr : ModuleRegistry → String → String → Option ExecutorClass
  | [], _, _ => Option.none
  | ((m, a), ex) :: rest, module, attr =>
    if m = module ∧ a = attr then some ex else getModuleAttr rest module attr

/-- Python `qualname.split('.')`: split a string at every dot (`''.split('.')`
is `['']`, as in Python).  Defined character by character because the
embedding must compute inside the kernel. -/
def splitDots : List Char → List (List Char)
  | [] => [[]]
  | c :: rest =>
    if c = '.' then [] :: splitDots rest
    else
      match splitDots rest with
      | [] => [[c]]
      | w :: ws => (c :: w) :: ws

/-- `func.__qualname__.split('.')` as a list of strings. -/
def qualnameParts (q : String) : List String :=
  (splitDots q.toList).map (fun w => String.mk w)

/-- The error message of the definition-scope check. -/
def scopeErrorMsg : String :=
  "The @component decorator can only be applied to a function defined at " ++
  "the module level. It cannot be used to construct a component for a " ++
  "function defined in a nested class or function closure."

/-- The `component` decorator (decorators.py lines 87-219): reject functions
whose `__qualname__` contains a `<locals>` path segment, run the signature
parser, build the executor class, register it in the function's module under
`<name>_Executor`, and build the component class.  (The Python 2 interpreter
check and the `ComponentSpec`/`ExecutorClassSpec` wrappers carry no further
data and are inlined away.)  Takes and returns the module registry to model
the `setattr` side effect. -/
def component (reg : ModuleRegistry) (func : PyFunction) :
    Except ComponentError (ComponentClass × ModuleRegistry) :=
  if "<locals>" ∈ qualnameParts func.qualname then
    Except.error (ComponentError.scopeError scopeErrorMsg)
  else
    match func.parse with
    | Except.error e => Except.error (ComponentError.signatureError e)
    | Except.ok cls =>
      let executor_class : ExecutorClass :=
        { name := func.name ++ "_Executor"
          module := func.module
          ARG_FORMATS := cls.arg_formats.map (fun p => (p.1, p.2.code))
          FUNCTION := func.impl
          RETURNED_VALUES := cls.returned_values }
      let reg' := setModuleAttr reg func.module (func.name ++ "_Executor")
        executor_class
      Except.ok
        ({ name := func.name
           module := func.module
           INPUTS := cls.inputs
           OUTPUTS := cls.outputs
           executor := executor_class }, reg')

/-! ### Association-list lemmas -/

theorem assocSet_keys (d : PyDict) (n : String) (l : List Artifact) :
    (assocSet d n l).map Prod.fst = d.map Prod.fst := by
  induction d with
  | nil => rfl
  | cons p rest ih =>
    obtain ⟨m, lm⟩ := p
    by_cases h : m = n <;> simp [assocSet, h, ih]

theorem assocLookup_assocSet_self (d : PyDict) (n : String) (l : List Artifact)
    (h : (assocLookup d n).isSome) :
    assocLookup (assocSet d n l) n = some l := by
  induction d with
  | nil => simp [assocLookup] at h
  | cons p rest ih =>
    obtain ⟨m, lm⟩ := p
    by_cases hm : m = n
    · simp [assocSet, assocLookup, hm]
    · simp [assocSet, assocLookup, hm] at h ⊢
      exact ih h

theorem assocLookup_assocSet_ne (d : PyDict) (n : String) (l : List Artifact)
    (m : String) (h : m ≠ n) :
    assocLookup (assocSet d n l) m = assocLookup d m := by
  induction d with
  | nil => rfl
  | cons p rest ih =>
    obtain ⟨k, lk⟩ := p
    by_cases hk : k = n
    · subst hk
      simp only [assocSet, if_pos rfl, assocLookup]
      rw [if_neg (fun hh => h hh.symm), if_neg (fun hh => h hh.symm)]
    · simp only [assocSet, if_neg hk, assocLookup]
      by_cases hkm : k = m <;> simp [hkm, ih]

/-! ### `setFirstValue` lemmas -/

/-- A name maps to a non-empty artifact list in a dictionary. -/
def nonemptyAt (d : PyDict) (n : String) : Prop :=
  ∃ a rest, assocLookup d n = some (a :: rest)

instance (d : PyDict) (n : String) : Decidable (nonemptyAt d n) := by
  unfold nonemptyAt
  match assocLookup d n with
  | Option.none => exact .isFalse (by simp)
  | some [] => exact .isFalse (by simp)
  | some (a :: rest) => exact .isTrue ⟨a, rest, rfl⟩

theorem setFirstValue_ok {d : PyDict} {n : String} {v : Value} {d' : PyDict}
    (h : setFirstValue d n v = Except.ok d') :
    ∃ a rest, assocLookup d n = some (a :: rest) ∧
      d' = assocSet d n ({ a with value := some v } :: rest) := by
  unfold setFirstValue at h
  match hl : assocLookup d n with
  | Option.none => rw [hl] at h; exact absurd h (by simp)
  | some [] => rw [hl] at h; exact absurd h (by simp)
  | some (a :: rest) =>
    rw [hl] at h
    exact ⟨a, rest, rfl, (Except.ok.injEq _ _ ▸ h).symm⟩

theorem setFirstValue_isOk {d : PyDict} {n : String} (v : Value)
    (h : nonemptyAt d n) : ∃ d', setFirstValue d n v = Except.ok d' := by
  obtain ⟨a, rest, hl⟩ := h
  refine ⟨assocSet d n ({ a with value := some v } :: rest), ?_⟩
  simp [setFirstValue, hl]

theorem setFirstValue_lookup_self {d : PyDict} {n : String} {v : Value}
    {d' : PyDict} (h : setFirstValue d n v = Except.ok d') :
    ∃ a rest, assocLookup d n = some (a :: rest) ∧
      assocLookup d' n = some ({ a with value := some v } :: rest) := by
  obtain ⟨a, rest, hl, rfl⟩ := setFirstValue_ok h
  exact ⟨a, rest, hl, assocLookup_assocSet_self _ _ _ (by simp [hl])⟩

theorem setFirstValue_lookup_ne {d : PyDict} {n : String} {v : Value}
    {d' : PyDict} (h : setFirstValue d n v = Except.ok d') (m : String)
    (hm : m ≠ n) : assocLookup d' m = assocLookup d m := by
  obtain ⟨a, rest, _, rfl⟩ := setFirstValue_ok h
  exact assocLookup_assocSet_ne _ _ _ _ hm

theorem setFirstValue_keys {d : PyDict} {n : String} {v : Value} {d' : PyDict}
    (h : setFirstValue d n v = Except.ok d') :
    d'.map Prod.fst = d.map Prod.fst := by
  obtain ⟨a, rest, _, rfl⟩ := setFirstValue_ok h
  exact assocSet_keys _ _ _

theorem setFirstValue_nonemptyAt {d : PyDict} {n : String} {v : Value}
    {d' : PyDict} (h : setFirstValue d n v = Except.ok d') (m : String)
    (hm : nonemptyAt d m) : nonemptyAt d' m := by
  by_cases hmn : m = n
  · subst hmn
    obtain ⟨a, rest, _, hl'⟩ := setFirstValue_lookup_self h
    exact ⟨_, _, hl'⟩
  · obtain ⟨a, rest, hl⟩ := hm
    exact ⟨a, rest, (setFirstValue_lookup_ne h m hmn).trans hl⟩

/-! ### Frame machinery: which slots a dictionary transformation may touch -/

/-- `FrameOk mayWrite d d'` says `d'` is `d` with, at most, the `value`
attribute of the first artifact of some entries overwritten; an entry `n`
may only receive a value `v` with `mayWrite n v`.  Keys, their order, the
`uri` and all artifacts after the first are untouched everywhere. -/
def FrameOk (mayWrite : String → Value → Prop) (d d' : PyDict) : Prop :=
  d'.map Prod.fst = d.map Prod.fst ∧
  ∀ n, assocLookup d' n = assocLookup d n ∨
    ∃ a rest v, mayWrite n v ∧ assocLookup d n = some (a :: rest) ∧
      assocLookup d' n = some ({ a with value := some v } :: rest)

theorem frameOk_refl (mayWrite : String → Value → Prop) (d : PyDict) :
    FrameOk mayWrite d d :=
  ⟨rfl, fun _ => Or.inl rfl⟩

theorem frameOk_mono {p q : String → Value → Prop} {d d' : PyDict}
    (hpq : ∀ n v, p n v → q n v) (h : FrameOk p d d') : FrameOk q d d' := by
  refine ⟨h.1, fun n => ?_⟩
  rcases h.2 n with h' | ⟨a, rest, v, hw, h1, h2⟩
  · exact Or.inl h'
  · exact Or.inr ⟨a, rest, v, hpq n v hw, h1, h2⟩

theorem frameOk_trans {p : String → Value → Prop} {d d' d'' : PyDict}
    (h1 : FrameOk p d d') (h2 : FrameOk p d' d'') : FrameOk p d d'' := by
  refine ⟨h2.1.trans h1.1, fun n => ?_⟩
  rcases h2.2 n with h2n | ⟨a, rest, v, hw, ha1, ha2⟩
  · rcases h1.2 n with h1n | ⟨a, rest, v, hw, ha1, ha2⟩
    · exact Or.inl (h2n.trans h1n)
    · exact Or.inr ⟨a, rest, v, hw, ha1, h2n.trans ha2⟩
  · rcases h1.2 n with h1n | ⟨b, rest', w, hw', hb1, hb2⟩
    · exact Or.inr ⟨a, rest, v, hw, h1n ▸ ha1, ha2⟩
    · rw [hb2] at ha1
      obtain ⟨rfl, rfl⟩ : { b with value := some w } = a ∧ rest' = rest := by
        simpa using ha1
      exact Or.inr ⟨b, rest', v, hw, hb1, ha2⟩

theorem frameOk_set {p : String → Value → Prop} {d d' : PyDict} {n : String}
    {v : Value} (hw : p n v) (h : setFirstValue d n v = Except.ok d') :
    FrameOk p d d' := by
  refine ⟨setFirstValue_keys h, fun m => ?_⟩
  by_cases hm : m = n
  · subst hm
    obtain ⟨a, rest, hl, hl'⟩ := setFirstValue_lookup_self h
    exact Or.inr ⟨a, rest, v, hw, hl, hl'⟩
  · exact Or.inl (setFirstValue_lookup_ne h m hm)

/-! ### `writeReturnedValues` lemmas -/

theorem writeReturnedValues_nil_entries (d : PyDict) (rvs : List String) :
    writeReturnedValues d rvs [] =
      Except.ok (d, rvs.map Warning.missingOutput) := by
  induction rvs with
  | nil => rfl
  | cons n rest ih => simp [writeReturnedValues, assocLookup, ih]

theorem writeReturnedValues_frame {d : PyDict} {rvs : List String}
    {entries : List (String × Value)} {r : PyDict × List Warning}
    (h : writeReturnedValues d rvs entries = Except.ok r) :
    FrameOk (fun n v => n ∈ rvs ∧ assocLookup entries n = some v) d r.1 := by
  induction rvs generalizing d r with
  | nil =>
    obtain rfl : ((d, []) : PyDict × List Warning) = r := by
      simpa [writeReturnedValues] using h
    exact frameOk_refl _ _
  | cons n rest ih =>
    unfold writeReturnedValues at h
    match hl : assocLookup entries n with
    | Option.none =>
      rw [hl] at h
      simp only [bind, Except.bind] at h
      match hrec : writeReturnedValues d rest entries with
      | Except.error e => rw [hrec] at h; exact absurd h (by simp)
      | Except.ok (d', ws) =>
        rw [hrec] at h
        obtain rfl : ((d', Warning.missingOutput n :: ws) :
            PyDict × List Warning) = r := by
          simpa [pure, Except.pure] using h
        have hih := ih hrec
        exact frameOk_mono
          (fun m v hm => ⟨List.mem_cons_of_mem n hm.1, hm.2⟩) hih
    | some v =>
      rw [hl] at h
      simp only [bind, Except.bind] at h
      match hset : setFirstValue d n v with
      | Except.error e => rw [hset] at h; exact absurd h (by simp)
      | Except.ok d' =>
        rw [hset] at h
        exact frameOk_trans (frameOk_set ⟨List.mem_cons_self n rest, hl⟩ hset)
          (frameOk_mono (fun m w hm => ⟨List.mem_cons_of_mem n hm.1, hm.2⟩)
            (ih h))

theorem writeReturnedValues_skips {d : PyDict} {rvs : List String}
    {entries : List (String × Value)} {r : PyDict × List Warning}
    (h : writeReturnedValues d rvs entries = Except.ok r) {n : String}
    (hn : assocLookup entries n = Option.none) :
    assocLookup r.1 n = assocLookup d n := by
  rcases (writeReturnedValues_frame h).2 n with h' | ⟨a, rest, v, hw, _, _⟩
  · exact h'
  · rw [hn] at hw; exact absurd hw.2 (by simp)

theorem writeReturnedValues_unlisted {d : PyDict} {rvs : List String}
    {entries : List (String × Value)} {r : PyDict × List Warning}
    (h : writeReturnedValues d rvs entries = Except.ok r) {n : String}
    (hn : n ∉ rvs) : assocLookup r.1 n = assocLookup d n := by
  rcases (writeReturnedValues_frame h).2 n with h' | ⟨a, rest, v, hw, _, _⟩
  · exact h'
  · exact absurd hw.1 hn

theorem writeReturnedValues_warnings {d : PyDict} {rvs : List String}
    {entries : List (String × Value)} {r : PyDict × List Warning}
    (h : writeReturnedValues d rvs entries = Except.ok r) :
    r.2 = (rvs.filter (fun n => (assocLookup entries n).isNone)).map
      Warning.missingOutput := by
  induction rvs generalizing d r with
  | nil =>
    obtain rfl : ((d, []) : PyDict × List Warning) = r := by
      simpa [writeReturnedValues] using h
    rfl
  | cons n rest ih =>
    unfold writeReturnedValues at h
    match hl : assocLookup entries n with
    | Option.none =>
      rw [hl] at h
      simp only [bind, Except.bind] at h
      match hrec : writeReturnedValues d rest entries with
      | Except.error e => rw [hrec] at h; exact absurd h (by simp)
      | Except.ok (d', ws) =>
        rw [hrec] at h
        obtain rfl : ((d', Warning.missingOutput n :: ws) :
            PyDict × List Warning) = r := by
          simpa [pure, Except.pure] using h
        simpa [List.filter_cons, hl] using ih hrec
    | some v =>
      rw [hl] at h
      simp only [bind, Except.bind] at h
      match hset : setFirstValue d n v with
      | Except.error e => rw [hset] at h; exact absurd h (by simp)
      | Except.ok d' =>
        rw [hset] at h
        simp [List.filter_cons, hl, ih h]

theorem writeReturnedValues_writes {d : PyDict} {rvs : List String}
    {entries : List (String × Value)} {r : PyDict × List Warning}
    (h : writeReturnedValues d rvs entries = Except.ok r) {n : String}
    {v : Value} (hn : n ∈ rvs) (hv : assocLookup entries n = some v) :
    ∃ a rest, assocLookup r.1 n = some (a :: rest) ∧ a.value = some v := by
  induction rvs generalizing d r with
  | nil => exact absurd hn (by simp)
  | cons m rest ih =>
    unfold writeReturnedValues at h
    by_cases hmn : m = n
    · subst hmn
      rw [hv] at h
      simp only [bind, Except.bind] at h
      match hset : setFirstValue d m v with
      | Except.error e => rw [hset] at h; exact absurd h (by simp)
      | Except.ok d' =>
        rw [hset] at h
        by_cases hrest : m ∈ rest
        · exact ih h hrest
        · obtain ⟨a, arest, _, hl'⟩ := setFirstValue_lookup_self hset
          exact ⟨{ a with value := some v }, arest,
            by rw [writeReturnedValues_unlisted h hrest, hl'], rfl⟩
    · have hn' : n ∈ rest := by
        rcases List.mem_cons.mp hn with h' | h'
        · exact absurd h'.symm hmn
        · exact h'
      match hl : assocLookup entries m with
      | Option.none =>
        rw [hl] at h
        simp only [bind, Except.bind] at h
        match hrec : writeReturnedValues d rest entries with
        | Except.error e => rw [hrec] at h; exact absurd h (by simp)
        | Except.ok (d', ws) =>
          rw [hrec] at h
          obtain rfl : ((d', Warning.missingOutput m :: ws) :
              PyDict × List Warning) = r := by
            simpa [pure, Except.pure] using h
          have hih := ih hrec hn'
          exact hih
      | some w =>
        rw [hl] at h
        simp only [bind, Except.bind] at h
        match hset : setFirstValue d m w with
        | Except.error e => rw [hset] at h; exact absurd h (by simp)
        | Except.ok d' =>
          rw [hset] at h
          exact ih h hn'

theorem writeReturnedValues_isOk {d : PyDict} {rvs : List String}
    {entries : List (String × Value)}
    (hslots : ∀ n ∈ rvs, (assocLookup entries n).isSome → nonemptyAt d n) :
    ∃ r, writeReturnedValues d rvs entries = Except.ok r := by
  induction rvs generalizing d with
  | nil => exact ⟨(d, []), rfl⟩
  | cons n rest ih =>
    unfold writeReturnedValues
    match hl : assocLookup entries n with
    | Option.none =>
      obtain ⟨⟨d', ws⟩, hrec⟩ :=
        ih (fun m hm => hslots m (List.mem_cons_of_mem n hm))
      exact ⟨(d', Warning.missingOutput n :: ws), by
        simp only [bind, Except.bind, hrec]; rfl⟩
    | some v =>
      obtain ⟨d', hset⟩ := setFirstValue_isOk v
        (hslots n (List.mem_cons_self n rest) (by simp [hl]))
      obtain ⟨r, hrec⟩ := ih (fun m hm hs =>
        setFirstValue_nonemptyAt hset m
          (hslots m (List.mem_cons_of_mem n hm) hs))
      exact ⟨r, by simp only [bind, Except.bind, hset, hrec]⟩

/-! ### `finishDo` and `Do` structure lemmas -/

theorem pyOr_dict (entries : List (String × Value)) :
    pyOr (PyVal.dict entries) (PyVal.dict []) = PyVal.dict entries := by
  cases entries <;> simp [pyOr, PyVal.truthy, List.isEmpty]

theorem finishDo_dict (ex : ExecutorClass) (d : PyDict)
    (entries : List (String × Value)) :
    finishDo ex d (PyVal.dict entries) =
      writeReturnedValues d ex.RETURNED_VALUES entries := by
  rw [finishDo, pyOr_dict]

theorem finishDo_nonDict (ex : ExecutorClass) (d : PyDict) {v : PyVal}
    (h : v.isDict = false) :
    finishDo ex d v =
      Except.ok (d, if v.truthy then [Warning.nonDictReturn v]
        else ex.RETURNED_VALUES.map Warning.missingOutput) := by
  cases v with
  | dict entries => simp [PyVal.isDict] at h
  | none =>
    rw [finishDo]
    simp [pyOr, PyVal.truthy, writeReturnedValues_nil_entries]
  | other w =>
    rw [finishDo]
    by_cases hw : w.truthy
    · simp [pyOr, PyVal.truthy, hw]
    · simp only [Bool.not_eq_true] at hw
      simp [pyOr, PyVal.truthy, hw, writeReturnedValues_nil_entries]

theorem Do_of_resolve {ex : ExecutorClass} {inD outD : PyDict}
    {args : List Arg}
    (h : resolveArgs inD outD ex.ARG_FORMATS = Except.ok args) :
    Do ex inD outD = finishDo ex outD (ex.FUNCTION args) := by
  rw [Do, h]
  rfl

theorem Do_of_resolve_error {ex : ExecutorClass} {inD outD : PyDict}
    {e : DoError}
    (h : resolveArgs inD outD ex.ARG_FORMATS = Except.error e) :
    Do ex inD outD = Except.error e := by
  rw [Do, h]
  rfl

/-! ### `resolveArg` classification lemmas -/

theorem resolveArg_unknown (inD outD : PyDict) (n : String) {fmt : Nat}
    (h : isKnownFormat fmt = false) :
    resolveArg inD outD n fmt = Except.error (DoError.valueError fmt) := by
  simp only [isKnownFormat, Bool.or_eq_false_iff, beq_eq_false_iff_ne,
    ne_eq] at h
  obtain ⟨⟨⟨⟨h1, h2⟩, h3⟩, h4⟩, h5⟩ := h
  simp [resolveArg, h1, h2, h3, h4, h5]

theorem firstOf_ok_of_nonempty {d : PyDict} {n : String}
    (h : nonemptyAt d n) : ∃ a, firstOf d n = Except.ok a := by
  obtain ⟨a, rest, hl⟩ := h
  exact ⟨a, by simp [firstOf, hl]⟩

theorem firstOf_error_of_empty {d : PyDict} {n : String}
    (h : ¬ nonemptyAt d n) :
    firstOf d n = Except.error (DoError.keyError n) ∨
    firstOf d n = Except.error (DoError.indexError n) := by
  unfold firstOf
  match hl : assocLookup d n with
  | Option.none => exact Or.inl rfl
  | some [] => exact Or.inr rfl
  | some (a :: rest) => exact absurd ⟨a, rest, hl⟩ h

/-- The role codes that read from `input_dict`. -/
def readsInput (fmt : Nat) : Prop :=
  fmt = ArgFormats.INPUT_ARTIFACT.code ∨ fmt = ArgFormats.INPUT_URI.code ∨
  fmt = ArgFormats.ARTIFACT_VALUE.code

/-- The role codes that read from `output_dict`. -/
def readsOutput (fmt : Nat) : Prop :=
  fmt = ArgFormats.OUTPUT_ARTIFACT.code ∨ fmt = ArgFormats.OUTPUT_URI.code

instance (fmt : Nat) : Decidable (readsInput fmt) := by
  unfold readsInput; infer_instance

instance (fmt : Nat) : Decidable (readsOutput fmt) := by
  unfold readsOutput; infer_instance

theorem resolveArg_ok_of_nonempty {inD outD : PyDict} {n : String}
    {fmt : Nat} (hin : readsInput fmt → nonemptyAt inD n)
    (hout : readsOutput fmt → nonemptyAt outD n) :
    (∃ a, resolveArg inD outD n fmt = Except.ok a) ∨
    resolveArg inD outD n fmt = Except.error (DoError.valueError fmt) := by
  by_cases hk : isKnownFormat fmt
  · left
    simp only [isKnownFormat, Bool.or_eq_true, beq_iff_eq] at hk
    unfold resolveArg
    rcases hk with ((((h | h) | h) | h) | h) <;> subst h
    · obtain ⟨a, ha⟩ := firstOf_ok_of_nonempty (hin (Or.inl rfl))
      exact ⟨Arg.artifact a, by simp [ha, Except.map]⟩
    · obtain ⟨a, ha⟩ := firstOf_ok_of_nonempty (hin (Or.inr (Or.inl rfl)))
      exact ⟨Arg.uri a.uri, by simp [ArgFormats.code, ha, Except.map]⟩
    · obtain ⟨a, ha⟩ := firstOf_ok_of_nonempty (hout (Or.inl rfl))
      exact ⟨Arg.artifact a, by simp [ArgFormats.code, ha, Except.map]⟩
    · obtain ⟨a, ha⟩ := firstOf_ok_of_nonempty (hout (Or.inr rfl))
      exact ⟨Arg.uri a.uri, by simp [ArgFormats.code, ha, Except.map]⟩
    · obtain ⟨a, ha⟩ := firstOf_ok_of_nonempty
        (hin (Or.inr (Or.inr rfl)))
      exact ⟨Arg.val a.value, by simp [ArgFormats.code, ha, Except.map]⟩
  · exact Or.inr (resolveArg_unknown inD outD n (by simpa using hk))

theorem resolveArgs_cons (inD outD : PyDict) (n : String) (fmt : Nat)
    (rest : List (String × Nat)) :
    resolveArgs inD outD ((n, fmt) :: rest) =
      (resolveArg inD outD n fmt).bind (fun a =>
        (resolveArgs inD outD rest).bind (fun args =>
          Except.ok (a :: args))) := rfl

theorem resolveArgs_append_ok {inD outD : PyDict}
    {pre : List (String × Nat)} {args : List Arg}
    (h : resolveArgs inD outD pre = Except.ok args)
    (l : List (String × Nat)) :
    resolveArgs inD outD (pre ++ l) =
      (resolveArgs inD outD l).map (fun rest => args ++ rest) := by
  induction pre generalizing args with
  | nil =>
    obtain rfl : ([] : List Arg) = args := by
      simpa [resolveArgs] using h
    simp only [List.nil_append]
    cases hres : resolveArgs inD outD l <;> simp [Except.map]
  | cons p rest ih =>
    obtain ⟨n, fmt⟩ := p
    rw [resolveArgs_cons] at h
    rw [List.cons_append, resolveArgs_cons]
    simp only [bind, Except.bind] at h ⊢
    match ha : resolveArg inD outD n fmt with
    | Except.error e => rw [ha] at h; exact absurd h (by simp)
    | Except.ok a =>
      rw [ha] at h
      match hrec : resolveArgs inD outD rest with
      | Except.error e => rw [hrec] at h; exact absurd h (by simp)
      | Except.ok args' =>
        rw [hrec] at h
        obtain rfl : a :: args' = args := by simpa using h
        rw [ih hrec]
        cases hres : resolveArgs inD outD l <;> simp [Except.map]

theorem resolveArgs_cons_error {inD outD : PyDict} {n : String} {fmt : Nat}
    {e : DoError} (h : resolveArg inD outD n fmt = Except.error e)
    (post : List (String × Nat)) :
    resolveArgs inD outD ((n, fmt) :: post) = Except.error e := by
  unfold resolveArgs
  simp only [bind, Except.bind, h]

/-! ### Only the first artifact of each sequence is consulted or written -/

/-- Truncate every artifact list of a dictionary to its first element. -/
def firstOnly (d : PyDict) : PyDict := d.map (fun p => (p.1, p.2.take 1))

theorem assocLookup_firstOnly (d : PyDict) (n : String) :
    assocLookup (firstOnly d) n = (assocLookup d n).map (fun l => l.take 1) := by
  induction d with
  | nil => rfl
  | cons p rest ih =>
    obtain ⟨m, l⟩ := p
    by_cases hm : m = n
    · simp [firstOnly, assocLookup, hm, ih]
    · simp only [firstOnly, List.map_cons, assocLookup, hm, if_neg hm]
      simpa [firstOnly] using ih

theorem firstOf_firstOnly (d : PyDict) (n : String) :
    firstOf (firstOnly d) n = firstOf d n := by
  unfold firstOf
  rw [assocLookup_firstOnly]
  match assocLookup d n with
  | Option.none => rfl
  | some [] => rfl
  | some (a :: rest) => rfl

theorem resolveArg_firstOnly (inD outD : PyDict) (n : String) (fmt : Nat) :
    resolveArg (firstOnly inD) (firstOnly outD) n fmt =
      resolveArg inD outD n fmt := by
  simp only [resolveArg, firstOf_firstOnly]

theorem resolveArgs_firstOnly (inD outD : PyDict)
    (fmts : List (String × Nat)) :
    resolveArgs (firstOnly inD) (firstOnly outD) fmts =
      resolveArgs inD outD fmts := by
  induction fmts with
  | nil => rfl
  | cons p rest ih =>
    obtain ⟨n, fmt⟩ := p
    rw [resolveArgs_cons, resolveArgs_cons, resolveArg_firstOnly, ih]

theorem assocSet_firstOnly (d : PyDict) (n : String) (l : List Artifact) :
    firstOnly (assocSet d n l) = assocSet (firstOnly d) n (l.take 1) := by
  induction d with
  | nil => rfl
  | cons p rest ih =>
    obtain ⟨m, lm⟩ := p
    by_cases hm : m = n
    · simp [firstOnly, assocSet, hm]
    · simp only [firstOnly, List.map_cons, assocSet, if_neg hm]
      simpa [firstOnly] using ih

theorem setFirstValue_firstOnly (d : PyDict) (n : String) (v : Value) :
    setFirstValue (firstOnly d) n v =
      (setFirstValue d n v).map firstOnly := by
  unfold setFirstValue
  rw [assocLookup_firstOnly]
  match assocLookup d n with
  | Option.none => rfl
  | some [] => rfl
  | some (a :: rest) =>
    simp only [Option.map_some, List.take_cons, List.take_nil, Except.map]
    rw [assocSet_firstOnly]
    rfl

theorem writeReturnedValues_firstOnly (d : PyDict) (rvs : List String)
    (entries : List (String × Value)) :
    writeReturnedValues (firstOnly d) rvs entries =
      (writeReturnedValues d rvs entries).map
        (fun r => (firstOnly r.1, r.2)) := by
  induction rvs generalizing d with
  | nil => rfl
  | cons n rest ih =>
    unfold writeReturnedValues
    match hl : assocLookup entries n with
    | Option.none =>
      simp only [bind, Except.bind, ih]
      cases hrec : writeReturnedValues d rest entries <;>
        simp [Except.map, pure, Except.pure]
    | some v =>
      simp only [bind, Except.bind]
      rw [setFirstValue_firstOnly]
      cases hset : setFirstValue d n v with
      | error e => simp [Except.map]
      | ok d' => simp [Except.map, ih]

theorem finishDo_firstOnly (ex : ExecutorClass) (d : PyDict) (v : PyVal) :
    finishDo ex (firstOnly d) v =
      (finishDo ex d v).map (fun r => (firstOnly r.1, r.2)) := by
  unfold finishDo
  match pyOr v (PyVal.dict []) with
  | PyVal.dict entries => exact writeReturnedValues_firstOnly d _ entries
  | PyVal.none => rfl
  | PyVal.other w => rfl

theorem Do_firstOnly (ex : ExecutorClass) (inD outD : PyDict) :
    Do ex (firstOnly inD) (firstOnly outD) =
      (Do ex inD outD).map (fun r => (firstOnly r.1, r.2)) := by
  unfold Do
  simp only [bind, Except.bind, resolveArgs_firstOnly]
  cases hres : resolveArgs inD outD ex.ARG_FORMATS with
  | error e => rfl
  | ok args => exact finishDo_firstOnly ex outD (ex.FUNCTION args)

/-! ### Lookup errors for defective slots that are actually consulted -/

theorem resolveArg_lookup_error {inD outD : PyDict} {n : String} {fmt : Nat}
    (h : (readsInput fmt ∧ ¬ nonemptyAt inD n) ∨
         (readsOutput fmt ∧ ¬ nonemptyAt outD n)) :
    resolveArg inD outD n fmt = Except.error (DoError.keyError n) ∨
    resolveArg inD outD n fmt = Except.error (DoError.indexError n) := by
  rcases h with ⟨hf, hne⟩ | ⟨hf, hne⟩
  · rcases hf with rfl | rfl | rfl <;>
      rcases firstOf_error_of_empty hne with he | he <;>
      simp [resolveArg, ArgFormats.code, he, Except.map]
  · rcases hf with rfl | rfl <;>
      rcases firstOf_error_of_empty hne with he | he <;>
      simp [resolveArg, ArgFormats.code, he, Except.map]

/-! ### Claim-side restatement of argument resolution (for claim C1) -/

/-- `d[name][0]` as a partial lookup. -/
def firstArtifact? (d : PyDict) (n : String) : Option Artifact :=
  (assocLookup d n).bind List.head?

/-- Stated from the words of claim C1 (not from the source): the resolved
call argument for one `(name, role)` pair — the artifact `input_dict[name][0]`
for InputArtifact, the string `input_dict[name][0].uri` for InputUri, the
artifact `output_dict[name][0]` for OutputArtifact, the string
`output_dict[name][0].uri` for OutputUri, the scalar
`input_dict[name][0].value` for ArtifactValue; undefined otherwise. -/
def claimArg (input_dict output_dict : PyDict) (name : String) (fmt : Nat) :
    Option Arg :=
  if fmt = ArgFormats.INPUT_ARTIFACT.code then
    (firstArtifact? input_dict name).map Arg.artifact
  else if fmt = ArgFormats.INPUT_URI.code then
    (firstArtifact? input_dict name).map (fun a => Arg.uri a.uri)
  else if fmt = ArgFormats.OUTPUT_ARTIFACT.code then
    (firstArtifact? output_dict name).map Arg.artifact
  else if fmt = ArgFormats.OUTPUT_URI.code then
    (firstArtifact? output_dict name).map (fun a => Arg.uri a.uri)
  else if fmt = ArgFormats.ARTIFACT_VALUE.code then
    (firstArtifact? input_dict name).map (fun a => Arg.val a.value)
  else
    Option.none

/-- Stated from the words of claim C1: the resolved arguments for the whole
format list, in declared parameter order. -/
def claimArgs (inD outD : PyDict) : List (String × Nat) → Option (List Arg)
  | [] => some []
  | (n, fmt) :: rest =>
    (claimArg inD outD n fmt).bind (fun a =>
      (claimArgs inD outD rest).bind (fun args => some (a :: args)))

theorem firstOf_eq_of_firstArtifact {d : PyDict} {n : String} {a : Artifact}
    (h : firstArtifact? d n = some a) : firstOf d n = Except.ok a := by
  unfold firstArtifact? at h
  unfold firstOf
  match hl : assocLookup d n with
  | Option.none => rw [hl] at h; exact absurd h (by simp)
  | some [] => rw [hl] at h; exact absurd h (by simp [List.head?])
  | some (b :: rest) =>
    rw [hl] at h
    obtain rfl : b = a := by simpa [List.head?] using h
    rfl

theorem resolveArg_eq_of_claimArg {inD outD : PyDict} {n : String}
    {fmt : Nat} {a : Arg} (h : claimArg inD outD n fmt = some a) :
    resolveArg inD outD n fmt = Except.ok a := by
  unfold claimArg at h
  unfold resolveArg
  split at h <;> rename_i hc
  case isTrue =>
    rw [if_pos hc]
    match hf : firstArtifact? inD n with
    | Option.none => rw [hf] at h; exact absurd h (by simp)
    | some b =>
      rw [hf] at h
      obtain rfl : Arg.artifact b = a := by simpa using h
      simp [firstOf_eq_of_firstArtifact hf, Except.map]
  all_goals rw [if_neg hc]
  all_goals split at h <;> rename_i hc2
  case isTrue =>
    rw [if_pos hc2]
    match hf : firstArtifact? inD n with
    | Option.none => rw [hf] at h; exact absurd h (by simp)
    | some b =>
      rw [hf] at h
      obtain rfl : Arg.uri b.uri = a := by simpa using h
      simp [firstOf_eq_of_firstArtifact hf, Except.map]
  all_goals rw [if_neg hc2]
  all_goals split at h <;> rename_i hc3
  case isTrue =>
    rw [if_pos hc3]
    match hf : firstArtifact? outD n with
    | Option.none => rw [hf] at h; exact absurd h (by simp)
    | some b =>
      rw [hf] at h
      obtain rfl : Arg.artifact b = a := by simpa using h
      simp [firstOf_eq_of_firstArtifact hf, Except.map]
  all_goals rw [if_neg hc3]
  all_goals split at h <;> rename_i hc4
  case isTrue =>
    rw [if_pos hc4]
    match hf : firstArtifact? outD n with
    | Option.none => rw [hf] at h; exact absurd h (by simp)
    | some b =>
      rw [hf] at h
      obtain rfl : Arg.uri b.uri = a := by simpa using h
      simp [firstOf_eq_of_firstArtifact hf, Except.map]
  all_goals rw [if_neg hc4]
  all_goals split at h <;> rename_i hc5
  case isTrue =>
    rw [if_pos hc5]
    match hf : firstArtifact? inD n with
    | Option.none => rw [hf] at h; exact absurd h (by simp)
    | some b =>
      rw [hf] at h
      obtain rfl : Arg.val b.value = a := by simpa using h
      simp [firstOf_eq_of_firstArtifact hf, Except.map]
  all_goals rw [if_neg hc5]
  all_goals exact absurd h (by simp)

theorem resolveArgs_eq_of_claimArgs {inD outD : PyDict}
    {fmts : List (String × Nat)} {args : List Arg}
    (h : claimArgs inD outD fmts = some args) :
    resolveArgs inD outD fmts = Except.ok args := by
  induction fmts generalizing args with
  | nil =>
    obtain rfl : ([] : List Arg) = args := by simpa [claimArgs] using h
    rfl
  | cons p rest ih =>
    obtain ⟨n, fmt⟩ := p
    unfold claimArgs at h
    rw [resolveArgs_cons]
    match ha : claimArg inD outD n fmt with
    | Option.none => rw [ha] at h; exact absurd h (by simp)
    | some a =>
      rw [ha] at h
      match hrec : claimArgs inD outD rest with
      | Option.none => rw [hrec] at h; exact absurd h (by simp)
      | some args' =>
        rw [hrec] at h
        obtain rfl : a :: args' = args := by simpa using h
        rw [resolveArg_eq_of_claimArg ha, ih hrec]
        rfl

/-! ### Inversion of a successful compilation -/

theorem component_ok_inv {reg : ModuleRegistry} {func : PyFunction}
    {comp : ComponentClass} {reg' : ModuleRegistry}
    (h : component reg func = Except.ok (comp, reg')) :
    ∃ cls, func.parse = Except.ok cls ∧
      comp.executor =
        { name := func.name ++ "_Executor"
          module := func.module
          ARG_FORMATS := cls.arg_formats.map (fun p => (p.1, p.2.code))
          FUNCTION := func.impl
          RETURNED_VALUES := cls.returned_values } ∧
      reg' = setModuleAttr reg func.module (func.name ++ "_Executor")
        comp.executor := by
  unfold component at h
  by_cases hq : "<locals>" ∈ qualnameParts func.qualname
  · rw [if_pos hq] at h; exact absurd h (by simp)
  · rw [if_neg hq] at h
    match hp : func.parse with
    | Except.error e => rw [hp] at h; exact absurd h (by simp)
    | Except.ok cls =>
      rw [hp] at h
      simp only [Except.ok.injEq, Prod.mk.injEq] at h
      obtain ⟨hcomp, hreg⟩ := h
      refine ⟨cls, rfl, ?_, ?_⟩
      · rw [← hcomp]
      · rw [← hreg, ← hcomp]

/-! ### The documented single-artifact precondition -/

/-- The precondition of claim C9: every name consulted by an argument format
maps, in the dictionary its role reads, to a non-empty artifact list, and
every declared returned-value name maps to a non-empty list in the output
dictionary. -/
def DoPrecondition (ex : ExecutorClass) (inD outD : PyDict) : Prop :=
  (∀ p ∈ ex.ARG_FORMATS,
    (readsInput p.2 → nonemptyAt inD p.1) ∧
    (readsOutput p.2 → nonemptyAt outD p.1)) ∧
  (∀ n ∈ ex.RETURNED_VALUES, nonemptyAt outD n)

instance (ex : ExecutorClass) (inD outD : PyDict) :
    Decidable (DoPrecondition ex inD outD) := by
  unfold DoPrecondition; infer_instance

theorem resolveArgs_classify {inD outD : PyDict} {fmts : List (String × Nat)}
    (h : ∀ p ∈ fmts, (readsInput p.2 → nonemptyAt inD p.1) ∧
      (readsOutput p.2 → nonemptyAt outD p.1)) :
    (∃ args, resolveArgs inD outD fmts = Except.ok args) ∨
    (∃ fmt, resolveArgs inD outD fmts = Except.error (DoError.valueError fmt)) := by
  induction fmts with
  | nil => exact Or.inl ⟨[], rfl⟩
  | cons p rest ih =>
    obtain ⟨n, fmt⟩ := p
    obtain ⟨hin, hout⟩ := h (n, fmt) (List.mem_cons_self _ _)
    rcases resolveArg_ok_of_nonempty hin hout with ⟨a, ha⟩ | ha
    · rcases ih (fun q hq => h q (List.mem_cons_of_mem _ hq)) with
        ⟨args, hargs⟩ | ⟨f, hf⟩
      · exact Or.inl ⟨a :: args, by rw [resolveArgs_cons, ha, hargs]; rfl⟩
      · exact Or.inr ⟨f, by rw [resolveArgs_cons, ha, hf]; rfl⟩
    · exact Or.inr ⟨fmt, resolveArgs_cons_error ha rest⟩

theorem setFirstValue_nonemptyAt_rev {d : PyDict} {n : String} {v : Value}
    {d' : PyDict} (h : setFirstValue d n v = Except.ok d') (m : String)
    (hm : nonemptyAt d' m) : nonemptyAt d m := by
  by_cases hmn : m = n
  · subst hmn
    obtain ⟨a, rest, hl, _⟩ := setFirstValue_lookup_self h
    exact ⟨a, rest, hl⟩
  · obtain ⟨a, rest, hl⟩ := hm
    exact ⟨a, rest, (setFirstValue_lookup_ne h m hmn) ▸ hl⟩

theorem setFirstValue_error_of_empty {d : PyDict} {n : String} (v : Value)
    (h : ¬ nonemptyAt d n) :
    setFirstValue d n v = Except.error (DoError.keyError n) ∨
    setFirstValue d n v = Except.error (DoError.indexError n) := by
  unfold setFirstValue
  match hl : assocLookup d n with
  | Option.none => exact Or.inl rfl
  | some [] => exact Or.inr rfl
  | some (a :: rest) => exact absurd ⟨a, rest, hl⟩ h

theorem writeReturnedValues_lookup_error {d : PyDict}
    {entries : List (String × Value)} {pre : List String} {n : String}
    {post : List String}
    (hpre : ∀ m ∈ pre, (assocLookup entries m).isSome → nonemptyAt d m)
    (hv : (assocLookup entries n).isSome) (hne : ¬ nonemptyAt d n) :
    writeReturnedValues d (pre ++ n :: post) entries =
        Except.error (DoError.keyError n) ∨
    writeReturnedValues d (pre ++ n :: post) entries =
        Except.error (DoError.indexError n) := by
  induction pre generalizing d with
  | nil =>
    obtain ⟨v, hl⟩ := Option.isSome_iff_exists.mp hv
    rcases setFirstValue_error_of_empty v hne with he | he
    · exact Or.inl (by simp [writeReturnedValues, hl, bind, Except.bind, he])
    · exact Or.inr (by simp [writeReturnedValues, hl, bind, Except.bind, he])
  | cons m rest ih =>
    rw [List.cons_append]
    unfold writeReturnedValues
    match hl : assocLookup entries m with
    | Option.none =>
      rcases ih (fun k hk => hpre k (List.mem_cons_of_mem _ hk)) hne with
        he | he
      · exact Or.inl (by simp [bind, Except.bind, he])
      · exact Or.inr (by simp [bind, Except.bind, he])
    | some v =>
      obtain ⟨d', hset⟩ := setFirstValue_isOk v
        (hpre m (List.mem_cons_self _ _) (by simp [hl]))
      have hpre' : ∀ k ∈ rest, (assocLookup entries k).isSome →
          nonemptyAt d' k := fun k hk hs =>
        setFirstValue_nonemptyAt hset k
          (hpre k (List.mem_cons_of_mem _ hk) hs)
      have hne' : ¬ nonemptyAt d' n := fun hsome =>
        hne (setFirstValue_nonemptyAt_rev hset n hsome)
      rcases ih hpre' hne' with he | he
      · exact Or.inl (by simp [bind, Except.bind, hset, he])
      · exact Or.inr (by simp [bind, Except.bind, hset, he])

/-! ### Concrete executors used by the concrete scenarios below -/

/-- The test function `simple_component` of `decorators_test.py` (lines
45-49): `simple_component(a: int, b: int, c: Text, d: bytes)` returning
`\x7b'e': float(a + b), 'f': float(a * b)\x7d`; `c` and `d` are unused.  Calls
whose first two arguments are not value slots holding integers fall outside
the test scenario and are mapped to `None`. -/
def simple_component_func : List Arg → PyVal
  | [Arg.val (some (Value.int a)), Arg.val (some (Value.int b)), _, _] =>
    PyVal.dict [("e", Value.float (a + b)), ("f", Value.float (a * b))]
  | _ => PyVal.none

/-- The executor class `component` generates for `simple_component`.
Modelled from the spec: the argument formats (all four parameters are
primitive-typed, hence ArtifactValue) and the returned-value names `e`, `f`
are the classification of `simple_component`'s signature per spec scenario
2; `function_parser.py` itself is not in the sources. -/
def simple_component_Executor : ExecutorClass :=
  { name := "simple_component_Executor"
    module := "tfx.components.base.decorators_test"
    ARG_FORMATS := [("a", ArgFormats.ARTIFACT_VALUE.code),
                    ("b", ArgFormats.ARTIFACT_VALUE.code),
                    ("c", ArgFormats.ARTIFACT_VALUE.code),
                    ("d", ArgFormats.ARTIFACT_VALUE.code)]
    FUNCTION := simple_component_func
    RETURNED_VALUES := ["e", "f"] }

/-- An executor whose wrapped function returns the falsy non-mapping `0`. -/
def zero_return_Executor : ExecutorClass :=
  { name := "zero_return_Executor", module := "m", ARG_FORMATS := []
    FUNCTION := fun _ => PyVal.other (Value.int 0), RETURNED_VALUES := [] }

/-- An executor whose wrapped function returns the truthy non-mapping `7`. -/
def int_return_Executor : ExecutorClass :=
  { name := "int_return_Executor", module := "m", ARG_FORMATS := []
    FUNCTION := fun _ => PyVal.other (Value.int 7), RETURNED_VALUES := ["x"] }

/-- An executor whose wrapped function returns the falsy non-mapping `''`. -/
def str_return_Executor : ExecutorClass :=
  { name := "str_return_Executor", module := "m", ARG_FORMATS := []
    FUNCTION := fun _ => PyVal.other (Value.str ""), RETURNED_VALUES := ["x"] }

/-- An executor declaring returned values `x` and `y` whose function only
returns `y` (spec scenario 4 shape). -/
def partial_return_Executor : ExecutorClass :=
  { name := "partial_return_Executor", module := "m", ARG_FORMATS := []
    FUNCTION := fun _ => PyVal.dict [("y", Value.int 5)]
    RETURNED_VALUES := ["x", "y"] }

/-- An executor exercising all five argument roles. -/
def all_roles_Executor : ExecutorClass :=
  { name := "all_roles_Executor", module := "m"
    ARG_FORMATS := [("x1", ArgFormats.INPUT_ARTIFACT.code),
                    ("x2", ArgFormats.INPUT_URI.code),
                    ("y1", ArgFormats.OUTPUT_ARTIFACT.code),
                    ("y2", ArgFormats.OUTPUT_URI.code),
                    ("x3", ArgFormats.ARTIFACT_VALUE.code)]
    FUNCTION := fun _ => PyVal.none
    RETURNED_VALUES := [] }

/-- Input dictionary for `all_roles_Executor`. -/
def rolesInputDict : PyDict :=
  [("x1", [Artifact.mk "u1" Option.none]),
   ("x2", [Artifact.mk "u2" Option.none]),
   ("x3", [Artifact.mk "u3" (some (Value.int 9))])]

/-- Output dictionary for `all_roles_Executor`. -/
def rolesOutputDict : PyDict :=
  [("y1", [Artifact.mk "v1" Option.none]),
   ("y2", [Artifact.mk "v2" Option.none])]

/-- An executor whose stored argument format `99` is not an `ArgFormats`
member. -/
def unknown_format_Executor : ExecutorClass :=
  { name := "unknown_format_Executor", module := "m"
    ARG_FORMATS := [("x", 99)]
    FUNCTION := fun _ => PyVal.none, RETURNED_VALUES := [] }

/-- An executor declaring returned value `x` whose function returns `None`:
the `x` output slot is never consulted. -/
def skip_return_Executor : ExecutorClass :=
  { name := "skip_return_Executor", module := "m", ARG_FORMATS := []
    FUNCTION := fun _ => PyVal.none, RETURNED_VALUES := ["x"] }

/-- An executor with one InputArtifact parameter (used with an empty input
dictionary to exercise the lookup failure). -/
def missing_input_Executor : ExecutorClass :=
  { name := "missing_input_Executor", module := "m"
    ARG_FORMATS := [("a", ArgFormats.INPUT_ARTIFACT.code)]
    FUNCTION := fun _ => PyVal.none, RETURNED_VALUES := [] }

/-- A module-level function (`__qualname__` has no `<locals>` segment) with
a successful parse, as `component` sees it. -/
def injectorFunction : PyFunction :=
  { name := "injector", qualname := "injector", module := "tfx_test"
    parse := Except.ok
      { inputs := [], outputs := [("a", "Integer")]
        arg_formats := [], returned_values := ["a"] }
    impl := fun _ => PyVal.dict [("a", Value.int 10)] }

/-- A function defined inside a test method's closure, as in
`decorators_test.py` lines 66-74; its parse succeeds, showing the scope
check fires first. -/
def closureFunction : PyFunction :=
  { name := "my_component"
    qualname :=
      "ComponentDecoratorTest.testDefinitionInClosureFails.<locals>.my_component"
    module := "tfx_test"
    parse := Except.ok
      { inputs := [], outputs := [], arg_formats := [], returned_values := [] }
    impl := fun _ => PyVal.none }

/-! ### Claim C1 -/

/-- Claim C1: for every invocation of the adapter's `Do` with input and
output artifact dictionaries, the call arguments are resolved by iterating
the stored argument formats in declared parameter order, taking for each
`(name, role)` the artifact `input_dict[name][0]` for InputArtifact, the
string `input_dict[name][0].uri` for InputUri, the artifact
`output_dict[name][0]` for OutputArtifact, the string
`output_dict[name][0].uri` for OutputUri, and the scalar
`input_dict[name][0].value` for ArtifactValue; the wrapped function is then
called positionally with exactly these resolved arguments in that order
(`claimArgs` is that per-role resolution stated from the claim's words;
`finishDo` is everything `Do` does after the call `ex.FUNCTION args`). -/
theorem C1_resolved_in_declared_order (ex : ExecutorClass)
    (inD outD : PyDict) (args : List Arg)
    (h : claimArgs inD outD ex.ARG_FORMATS = some args) :
    resolveArgs inD outD ex.ARG_FORMATS = Except.ok args ∧
    Do ex inD outD = finishDo ex outD (ex.FUNCTION args) := by
  have hres := resolveArgs_eq_of_claimArgs h
  exact ⟨hres, Do_of_resolve hres⟩

/-- Witness for C1 at a concrete invocation exercising all five roles. -/
theorem C1_witness :
    resolveArgs rolesInputDict rolesOutputDict all_roles_Executor.ARG_FORMATS
        = Except.ok
          [Arg.artifact (Artifact.mk "u1" Option.none), Arg.uri "u2",
           Arg.artifact (Artifact.mk "v1" Option.none), Arg.uri "v2",
           Arg.val (some (Value.int 9))] ∧
    Do all_roles_Executor rolesInputDict rolesOutputDict =
      finishDo all_roles_Executor rolesOutputDict
        (all_roles_Executor.FUNCTION
          [Arg.artifact (Artifact.mk "u1" Option.none), Arg.uri "u2",
           Arg.artifact (Artifact.mk "v1" Option.none), Arg.uri "v2",
           Arg.val (some (Value.int 9))]) :=
  C1_resolved_in_declared_order all_roles_Executor rolesInputDict
    rolesOutputDict _ rfl

/-! ### Claim C2 -/

/-- Counterexample to claim C2 as stated: the wrapped function returns the
non-mapping value `0`, yet `Do` completes with an empty warning list — the
claimed non-fatal usage warning is not reported (the claim asserts a warning
for every non-mapping return value; `0` is falsy, so `outputs or \x7b\x7d`
replaces it before the `isinstance` check). -/
theorem C2_counterexample :
    Do zero_return_Executor [] [] =
      Except.ok (([] : PyDict), ([] : List Warning)) := rfl

/-- Claim C2 (amended): for every invocation where the wrapped function
returns a non-mapping value, no output artifact value is written (the output
dictionary is returned unchanged) and the invocation completes without
raising; the non-mapping usage warning is reported exactly when the returned
value is truthy — `None` and falsy non-mapping values are normalized to an
empty mapping, leaving only the per-name missing-output warnings. -/
theorem C2_nonmapping_return_completes (ex : ExecutorClass)
    (inD outD : PyDict) (args : List Arg)
    (hres : resolveArgs inD outD ex.ARG_FORMATS = Except.ok args)
    (hnd : (ex.FUNCTION args).isDict = false) :
    Do ex inD outD = Except.ok (outD,
      if (ex.FUNCTION args).truthy then
        [Warning.nonDictReturn (ex.FUNCTION args)]
      else ex.RETURNED_VALUES.map Warning.missingOutput) := by
  rw [Do_of_resolve hres, finishDo_nonDict _ _ hnd]

/-- Witness for C2 (amended) at a concrete truthy non-mapping return. -/
theorem C2_witness :
    Do int_return_Executor [] [] = Except.ok (([] : PyDict),
      [Warning.nonDictReturn (PyVal.other (Value.int 7))]) := by
  have h := C2_nonmapping_return_completes int_return_Executor [] [] [] rfl rfl
  simpa using h

/-! ### Claim C3 -/

/-- Claim C3: for every invocation where the wrapped function returns a
mapping, and for every name declared in the stored returned-values set: if
the name is absent from the returned mapping, a non-fatal warning is emitted
and that output artifact's value slot is left unset (the whole entry is
unchanged), without raising; if the name is present, its value is written
into `output_dict[name][0].value`.  The slot hypothesis `hslots` states that
every declared name that is present in the mapping has a writable slot —
exactly what writing needs to not raise. -/
theorem C3_returned_values_distribution (ex : ExecutorClass)
    (inD outD : PyDict) (args : List Arg) (entries : List (String × Value))
    (hres : resolveArgs inD outD ex.ARG_FORMATS = Except.ok args)
    (hfun : ex.FUNCTION args = PyVal.dict entries)
    (hslots : ∀ n ∈ ex.RETURNED_VALUES,
      (assocLookup entries n).isSome → nonemptyAt outD n) :
    ∃ r, Do ex inD outD = Except.ok r ∧
      ∀ n ∈ ex.RETURNED_VALUES,
        (assocLookup entries n = Option.none →
          Warning.missingOutput n ∈ r.2 ∧
          assocLookup r.1 n = assocLookup outD n) ∧
        (∀ v, assocLookup entries n = some v →
          ∃ a rest, assocLookup r.1 n = some (a :: rest) ∧
            a.value = some v) := by
  rw [Do_of_resolve hres, hfun, finishDo_dict]
  obtain ⟨r, hr⟩ := writeReturnedValues_isOk hslots
  refine ⟨r, hr, fun n hn =>
    ⟨fun hnone => ⟨?_, writeReturnedValues_skips hr hnone⟩,
     fun v hv => writeReturnedValues_writes hr hn hv⟩⟩
  rw [writeReturnedValues_warnings hr]
  exact List.mem_map_of_mem _ (List.mem_filter.mpr ⟨hn, by simp [hnone]⟩)

/-- Witness for C3 at spec scenario 4: declared names `x`, `y`, the function
returns only `y`; `x` keeps its slot and gets a warning, `y` is written. -/
theorem C3_witness :
    ∃ r, Do partial_return_Executor []
        [("x", [Artifact.mk "ux" Option.none]),
         ("y", [Artifact.mk "uy" Option.none])] = Except.ok r ∧
      ∀ n ∈ partial_return_Executor.RETURNED_VALUES,
        (assocLookup [("y", Value.int 5)] n = Option.none →
          Warning.missingOutput n ∈ r.2 ∧
          assocLookup r.1 n = assocLookup
            [("x", [Artifact.mk "ux" Option.none]),
             ("y", [Artifact.mk "uy" Option.none])] n) ∧
        (∀ v, assocLookup [("y", Value.int 5)] n = some v →
          ∃ a rest, assocLookup r.1 n = some (a :: rest) ∧
            a.value = some v) :=
  C3_returned_values_distribution partial_return_Executor _ _ [] _ rfl rfl
    (by decide)

/-! ### Claim C4 -/

/-- Claim C4: for every function whose qualified name shows it is defined
inside a nested class or function closure (a `<locals>` segment in
`__qualname__.split('.')`), applying the component compiler fails with the
definition-scope error, regardless of the function's parameter and return
annotations — the conclusion holds for every `parse` outcome, so the scope
check fires before any annotation is inspected. -/
theorem C4_nested_definition_fails (reg : ModuleRegistry) (func : PyFunction)
    (h : "<locals>" ∈ qualnameParts func.qualname) :
    component reg func =
      Except.error (ComponentError.scopeError scopeErrorMsg) := by
  unfold component
  rw [if_pos h]

/-- Witness for C4: the closure-defined test component of
`decorators_test.py`, whose parse succeeds, still fails compilation. -/
theorem C4_witness :
    component [] closureFunction =
      Except.error (ComponentError.scopeError scopeErrorMsg) :=
  C4_nested_definition_fails [] closureFunction (by decide)

/-! ### Claim C5 -/

/-- Claim C5: for `simple_component(a: int, b: int, c: Text, d: bytes)`
returning `\x7be: float(a+b), f: float(a*b)\x7d`, invoking its adapter with input
artifacts carrying `a = 10` and `b = 22` (and any `c`, `d` artifacts, any
uris) sets the output artifact `e`'s value to `32.0` and `f`'s value to
`220.0` (and nothing else: no warnings, uris preserved). -/
theorem C5_simple_component_scenario (ua ub : String)
    (cArt dArt eArt fArt : Artifact) :
    Do simple_component_Executor
      [("a", [Artifact.mk ua (some (Value.int 10))]),
       ("b", [Artifact.mk ub (some (Value.int 22))]),
       ("c", [cArt]), ("d", [dArt])]
      [("e", [eArt]), ("f", [fArt])] =
    Except.ok ([("e", [{ eArt with value := some (Value.float 32) }]),
                ("f", [{ fArt with value := some (Value.float 220) }])],
      ([] : List Warning)) := rfl

/-! ### Claim C6 -/

/-- Claim C6: for every invocation of the adapter's `Do`, if the stored
argument formats contain a role outside the fixed five and resolution
reaches it (the formats before it resolve), `Do` raises the fatal
`ValueError` identifying the unknown argument format; and this branch is
unreachable for formats produced by successful classification: every format
stored by a successful `component` compilation is one of the five known
codes. -/
theorem C6_unknown_argument_format :
    (∀ (ex : ExecutorClass) (inD outD : PyDict) (pre : List (String × Nat))
      (n : String) (fmt : Nat) (post : List (String × Nat)) (args : List Arg),
      ex.ARG_FORMATS = pre ++ (n, fmt) :: post →
      isKnownFormat fmt = false →
      resolveArgs inD outD pre = Except.ok args →
      Do ex inD outD = Except.error (DoError.valueError fmt)) ∧
    (∀ (reg : ModuleRegistry) (func : PyFunction) (comp : ComponentClass)
      (reg' : ModuleRegistry),
      component reg func = Except.ok (comp, reg') →
      ∀ p ∈ comp.executor.ARG_FORMATS, isKnownFormat p.2 = true) := by
  constructor
  · intro ex inD outD pre n fmt post args hfmts hk hpre
    apply Do_of_resolve_error
    rw [hfmts, resolveArgs_append_ok hpre,
      resolveArgs_cons_error (resolveArg_unknown inD outD n hk) post]
    rfl
  · intro reg func comp reg' h p hp
    obtain ⟨cls, _, hex, _⟩ := component_ok_inv h
    rw [hex] at hp
    simp only [List.mem_map] at hp
    obtain ⟨q, _, rfl⟩ := hp
    cases hq : q.2 <;> simp [ArgFormats.code, isKnownFormat]

/-- Witness for C6 at a concrete executor whose only stored format is the
unknown code `99`. -/
theorem C6_witness :
    Do unknown_format_Executor [("x", [Artifact.mk "u" Option.none])] [] =
      Except.error (DoError.valueError 99) :=
  C6_unknown_argument_format.1 unknown_format_Executor
    [("x", [Artifact.mk "u" Option.none])] [] [] "x" 99 [] [] rfl rfl rfl

/-! ### Claim C7 -/

/-- Claim C7: every invocation of the adapter's `Do` returns no value
beyond its effect on the output dictionary (in this embedding `Do`'s result
is exactly that dictionary plus the warning log, and the input dictionary is
taken by value and never returned); whenever `Do` completes, the output
dictionary keeps exactly its keys in order, and an entry differs from its
original at most by the `value` attribute of its first artifact — and only
for names that are both declared in the returned-values set and present in
the mapping the wrapped function returned; `uri` and all other artifact
fields, and all sequence elements beyond the first, are unchanged. -/
theorem C7_output_frame (ex : ExecutorClass) (inD outD : PyDict)
    (r : PyDict × List Warning) (h : Do ex inD outD = Except.ok r) :
    r.1.map Prod.fst = outD.map Prod.fst ∧
    ∀ n, assocLookup r.1 n = assocLookup outD n ∨
      (n ∈ ex.RETURNED_VALUES ∧
        ∃ args entries a rest v,
          resolveArgs inD outD ex.ARG_FORMATS = Except.ok args ∧
          pyOr (ex.FUNCTION args) (PyVal.dict []) = PyVal.dict entries ∧
          assocLookup entries n = some v ∧
          assocLookup outD n = some (a :: rest) ∧
          assocLookup r.1 n = some ({ a with value := some v } :: rest)) := by
  have hcases : (∃ args, resolveArgs inD outD ex.ARG_FORMATS =
      Except.ok args) ∨
      (∃ e, resolveArgs inD outD ex.ARG_FORMATS = Except.error e) := by
    cases resolveArgs inD outD ex.ARG_FORMATS
    · exact Or.inr ⟨_, rfl⟩
    · exact Or.inl ⟨_, rfl⟩
  rcases hcases with ⟨args, hres⟩ | ⟨e, hres⟩
  · have h2 : finishDo ex outD (ex.FUNCTION args) = Except.ok r := by
      rw [← Do_of_resolve hres]; exact h
    unfold finishDo at h2
    cases hv : pyOr (ex.FUNCTION args) (PyVal.dict []) with
    | dict entries =>
      rw [hv] at h2
      have h3 : writeReturnedValues outD ex.RETURNED_VALUES entries =
          Except.ok r := h2
      have hframe := writeReturnedValues_frame h3
      refine ⟨hframe.1, fun n => ?_⟩
      rcases hframe.2 n with h' | ⟨a, rest, v, ⟨hmem, hent⟩, ha1, ha2⟩
      · exact Or.inl h'
      · exact Or.inr ⟨hmem, args, entries, a, rest, v, hres, hv, hent,
          ha1, ha2⟩
    | none =>
      rw [hv] at h2
      obtain rfl : ((outD, [Warning.nonDictReturn PyVal.none]) :
          PyDict × List Warning) = r := by simpa using h2
      exact ⟨rfl, fun n => Or.inl rfl⟩
    | other w =>
      rw [hv] at h2
      obtain rfl : ((outD, [Warning.nonDictReturn (PyVal.other w)]) :
          PyDict × List Warning) = r := by simpa using h2
      exact ⟨rfl, fun n => Or.inl rfl⟩
  · rw [Do_of_resolve_error hres] at h
    exact absurd h (by simp)

/-- Witness for C7 at a concrete completed invocation: the skipped declared
name `x` keeps its entry untouched, and the keys are preserved. -/
theorem C7_witness :
    ([("x", [Artifact.mk "ux" Option.none]),
      ("y", [{ Artifact.mk "uy" Option.none with
                value := some (Value.int 5) }])].map Prod.fst =
      ([("x", [Artifact.mk "ux" Option.none]),
        ("y", [Artifact.mk "uy" Option.none])] : PyDict).map Prod.fst) ∧
    assocLookup [("x", [Artifact.mk "ux" Option.none]),
      ("y", [{ Artifact.mk "uy" Option.none with
                value := some (Value.int 5) }])] "x" =
      assocLookup [("x", [Artifact.mk "ux" Option.none]),
        ("y", [Artifact.mk "uy" Option.none])] "x" := by
  have h := C7_output_frame partial_return_Executor []
    [("x", [Artifact.mk "ux" Option.none]),
     ("y", [Artifact.mk "uy" Option.none])]
    ([("x", [Artifact.mk "ux" Option.none]),
      ("y", [{ Artifact.mk "uy" Option.none with
                value := some (Value.int 5) }])],
     [Warning.missingOutput "x"]) rfl
  refine ⟨h.1, ?_⟩
  rcases h.2 "x" with h' | ⟨_, args, entries, a, rest, v, _, hpy, hent, _, _⟩
  · exact h'
  · obtain rfl : [("y", Value.int 5)] = entries := by
      simpa [partial_return_Executor, pyOr, PyVal.truthy] using hpy
    exact absurd hent (by simp [assocLookup])

/-! ### Claim C8 -/

/-- Claim C8: for every successfully compiled function, compilation
registers the generated executor class in the function's originating module
under the name formed from the function's name plus the `_Executor` suffix,
so that the executor is resolvable afterwards by (module, derived name)
without the in-memory compiled object. -/
theorem C8_executor_registration (reg : ModuleRegistry) (func : PyFunction)
    (comp : ComponentClass) (reg' : ModuleRegistry)
    (h : component reg func = Except.ok (comp, reg')) :
    getModuleAttr reg' func.module (func.name ++ "_Executor") =
      some comp.executor := by
  obtain ⟨cls, _, _, hreg⟩ := component_ok_inv h
  rw [hreg]
  simp [getModuleAttr, setModuleAttr]

/-- Witness for C8: compiling the module-level `injector`-shaped function
registers `injector_Executor` in module `tfx_test`, resolvable by name. -/
theorem C8_witness :
    getModuleAttr
      (setModuleAttr [] "tfx_test" "injector_Executor"
        { name := "injector_Executor", module := "tfx_test"
          ARG_FORMATS := [], FUNCTION := injectorFunction.impl
          RETURNED_VALUES := ["a"] })
      "tfx_test" "injector_Executor" =
    some ({ name := "injector", module := "tfx_test", INPUTS := []
            OUTPUTS := [("a", "Integer")]
            executor :=
              { name := "injector_Executor", module := "tfx_test"
                ARG_FORMATS := [], FUNCTION := injectorFunction.impl
                RETURNED_VALUES := ["a"] } } : ComponentClass).executor :=
  C8_executor_registration [] injectorFunction _ _ rfl

/-! ### Claim C9 -/

/-- Counterexample to the last clause of claim C9 as stated: the declared
returned-value name `x` maps to nothing in the empty output dictionary (the
claim's precondition fails), yet `Do` does not raise a lookup or index
error — it completes, because the wrapped function returned `None`, so the
`x` output slot is never consulted. -/
theorem C9_counterexample :
    Do skip_return_Executor [] [] =
      Except.ok (([] : PyDict), [Warning.missingOutput "x"]) := rfl

/-- Claim C9 (amended): under the precondition that every name appearing in
the argument formats maps, in the dictionary its role reads, to a non-empty
sequence, and every declared returned-value name maps to a non-empty
sequence in the output dictionary, `Do` never fails on lookup or indexing
(any error it raises is the unknown-format `ValueError`); only the first
element of each sequence is ever consulted or written (truncating every
sequence to its first element changes nothing but the returned tails);
and without the precondition, `Do` raises a lookup/index error exactly when
the defective slot is actually consulted — by a reached argument-format
entry, or by a returned-value name that is present in the returned mapping
(a defective slot never consulted does not raise, per the
counterexample). -/
theorem C9_single_artifact_assumption :
    (∀ (ex : ExecutorClass) (inD outD : PyDict) (e : DoError),
      DoPrecondition ex inD outD → Do ex inD outD = Except.error e →
      ∃ fmt, e = DoError.valueError fmt) ∧
    (∀ (ex : ExecutorClass) (inD outD : PyDict),
      Do ex (firstOnly inD) (firstOnly outD) =
        (Do ex inD outD).map (fun r => (firstOnly r.1, r.2))) ∧
    (∀ (ex : ExecutorClass) (inD outD : PyDict) (pre : List (String × Nat))
      (n : String) (fmt : Nat) (post : List (String × Nat)) (args : List Arg),
      ex.ARG_FORMATS = pre ++ (n, fmt) :: post →
      resolveArgs inD outD pre = Except.ok args →
      ((readsInput fmt ∧ ¬ nonemptyAt inD n) ∨
       (readsOutput fmt ∧ ¬ nonemptyAt outD n)) →
      Do ex inD outD = Except.error (DoError.keyError n) ∨
      Do ex inD outD = Except.error (DoError.indexError n)) ∧
    (∀ (ex : ExecutorClass) (inD outD : PyDict) (args : List Arg)
      (entries : List (String × Value)) (pre : List String) (n : String)
      (post : List String),
      resolveArgs inD outD ex.ARG_FORMATS = Except.ok args →
      ex.FUNCTION args = PyVal.dict entries →
      ex.RETURNED_VALUES = pre ++ n :: post →
      (∀ m ∈ pre, (assocLookup entries m).isSome → nonemptyAt outD m) →
      (assocLookup entries n).isSome → ¬ nonemptyAt outD n →
      Do ex inD outD = Except.error (DoError.keyError n) ∨
      Do ex inD outD = Except.error (DoError.indexError n)) := by
  refine ⟨?_, ?_, ?_, ?_⟩
  · intro ex inD outD e hpre h
    rcases resolveArgs_classify hpre.1 with ⟨args, hok⟩ | ⟨fmt, herr⟩
    · rw [Do_of_resolve hok] at h
      unfold finishDo at h
      cases hv : pyOr (ex.FUNCTION args) (PyVal.dict []) with
      | dict entries =>
        rw [hv] at h
        obtain ⟨r, hr⟩ := writeReturnedValues_isOk
          (fun n hn _ => hpre.2 n hn)
        have h2 : writeReturnedValues outD ex.RETURNED_VALUES entries =
            Except.error e := h
        rw [hr] at h2
        exact absurd h2 (by simp)
      | none =>
        rw [hv] at h
        exact absurd h (by simp)
      | other w =>
        rw [hv] at h
        exact absurd h (by simp)
    · rw [Do_of_resolve_error herr] at h
      refine ⟨fmt, ?_⟩
      have h2 : DoError.valueError fmt = e := by
        simpa using h
      exact h2.symm
  · intro ex inD outD
    exact Do_firstOnly ex inD outD
  · intro ex inD outD pre n fmt post args hfmts hpre hdef
    rcases resolveArg_lookup_error hdef with he | he
    · refine Or.inl (Do_of_resolve_error ?_)
      rw [hfmts, resolveArgs_append_ok hpre, resolveArgs_cons_error he post]
      rfl
    · refine Or.inr (Do_of_resolve_error ?_)
      rw [hfmts, resolveArgs_append_ok hpre, resolveArgs_cons_error he post]
      rfl
  · intro ex inD outD args entries pre n post hres hfun hrv hpre hv hne
    rw [Do_of_resolve hres, hfun, finishDo_dict, hrv]
    exact writeReturnedValues_lookup_error hpre hv hne

/-- Witness for C9 (amended): at a concrete invocation with an empty input
dictionary, the reached InputArtifact entry raises a lookup error; and at a
concrete invocation satisfying the precondition, the only error raised is
the unknown-format one. -/
theorem C9_witness :
    (Do missing_input_Executor [] [] =
        Except.error (DoError.keyError "a") ∨
     Do missing_input_Executor [] [] =
        Except.error (DoError.indexError "a")) ∧
    (∃ fmt, DoError.valueError 99 = DoError.valueError fmt) := by
  constructor
  · exact C9_single_artifact_assumption.2.2.1 missing_input_Executor [] []
      [] "a" ArgFormats.INPUT_ARTIFACT.code [] [] rfl rfl
      (Or.inl ⟨Or.inl rfl, by decide⟩)
  · exact C9_single_artifact_assumption.1 unknown_format_Executor
      [("x", [Artifact.mk "u" Option.none])] [] (DoError.valueError 99)
      (by decide) rfl

/-! ### Claim C10 -/

/-- Claim C10: for every invocation where the wrapped function returns a
falsy non-mapping value (such as `0`, the empty string, or `False`), the
adapter's `Do` first normalizes the result with `outputs or \x7b\x7d`, so the
value is silently replaced by an empty mapping and the non-mapping usage
warning is never emitted (the warnings are exactly the per-name
missing-output ones, none of which is a non-dict-return warning); the
non-mapping warning fires only for truthy non-mapping return values. -/
theorem C10_falsy_nonmapping_normalized (ex : ExecutorClass)
    (inD outD : PyDict) (args : List Arg)
    (hres : resolveArgs inD outD ex.ARG_FORMATS = Except.ok args)
    (hnd : (ex.FUNCTION args).isDict = false) :
    ((ex.FUNCTION args).truthy = false →
      Do ex inD outD = Except.ok (outD,
        ex.RETURNED_VALUES.map Warning.missingOutput) ∧
      ∀ v, Warning.nonDictReturn v ∉
        ex.RETURNED_VALUES.map Warning.missingOutput) ∧
    ((ex.FUNCTION args).truthy = true →
      Do ex inD outD = Except.ok (outD,
        [Warning.nonDictReturn (ex.FUNCTION args)])) := by
  rw [Do_of_resolve hres, finishDo_nonDict _ _ hnd]
  constructor
  · intro hf
    rw [hf]
    refine ⟨rfl, fun v => ?_⟩
    simp [List.mem_map]
  · intro ht
    rw [ht]
    rfl

/-- Witness for C10 at a concrete falsy non-mapping return (`''`): the
declared name `x` gets a missing-output warning, no non-dict warning. -/
theorem C10_witness :
    Do str_return_Executor [] [] =
      Except.ok (([] : PyDict), [Warning.missingOutput "x"]) ∧
    ∀ v, Warning.nonDictReturn v ∉ [Warning.missingOutput "x"] := by
  have h := (C10_falsy_nonmapping_normalized str_return_Executor [] [] []
    rfl rfl).1 rfl
  exact ⟨h.1, fun v => h.2 v⟩

end TfxDecorators
